import Mathlib

/-!
Verification of the broadcast registry / fan-out core of the server-sent-events
broker in `main.go`.

The embedding follows the source directly:

* `Broker.clients` is a Go map used as a set of client message channels; each
  channel is the per-client `Sink`.  We model a sink as a `Nat` identifier and
  the registry as a duplicate-free `List Sink` of the map's keys (Go map
  iteration order is unspecified; the embedding fixes one concrete order).
* The three channels `newClients`, `closingClients` and `Notifier` carry the
  three request kinds consumed by the `listen` loop; we model them as the
  inductive `Req`.
* `listen` is a sequential select loop: each iteration consumes one request
  and performs `broker.clients[s] = true`, `delete(broker.clients, s)`, or the
  fan-out `for clientMsgChan := range broker.clients { clientMsgChan <- event }`.
  `listenStep` is one iteration on the registry; `clientsAfter` folds a whole
  request trace.
* `ServeHTTP` is the client session adapter: `serveHTTPStart` models its
  prologue (the `http.Flusher` check, the four headers, the
  `broker.newClients <- msgChan` registration) and `receiveLoop` models its
  receive loop `for { fmt.Fprintf(rw, "data: %s\n\n", <-msgChan); flusher.Flush() }`.
* The per-client channel is created by `make(chan []byte)` and is therefore
  unbuffered: the fan-out send `clientMsgChan <- event` completes only when
  the session goroutine is ready to receive.  `listenBlocking` models this
  synchronous hand-off and is the delivery model for every delivery claim:
  every sink has a remaining-receive capacity (`none` = always ready,
  `some n` = can take `n` more events before its transport stalls forever),
  and a send to a sink with no capacity left blocks the loop for good, so a
  publish may deliver to only a prefix of the member list and later requests
  are never consumed.
-/

/-- A sink: one client's message channel, used as the registry key
(`chan []byte` in the source, identified here by a number). -/
abbrev Sink := Nat

/-- An event payload: an immutable byte string (`[]byte`), one symbol per byte. -/
abbrev Event := List Char

/-- One request consumed by the `listen` loop, i.e. one value arriving on one
of the broker's three channels. -/
inductive Req where
  /-- A value on `broker.newClients`: a new client connection. -/
  | attach (s : Sink)
  /-- A value on `broker.closingClients`: a client has detached. -/
  | detach (s : Sink)
  /-- A value on `broker.Notifier`: a new event from outside. -/
  | publish (e : Event)
deriving DecidableEq

/-- One iteration of the `select` in `Broker.listen`: the effect of one request
on the registry `broker.clients`.  The Go map used as a set is embedded as a
duplicate-free list of its keys: `broker.clients[s] = true` inserts the key if
absent (`List.insert` keeps the list unchanged when `s` is already a key) and
`delete(broker.clients, s)` removes it (`List.erase` is the identity when `s`
is absent). -/
def listenStep (clients : List Sink) : Req → List Sink
  | .attach s => clients.insert s
  | .detach s => clients.erase s
  | .publish _ => clients

/-- The registry after the `listen` loop has consumed the trace `t`, starting
from registry `clients` (the broker starts with the empty map). -/
def clientsAfter (clients : List Sink) (t : List Req) : List Sink :=
  t.foldl listenStep clients

/-- Go's `fmt.Fprintf` restricted to the shape used at line 80 of the source:
a format string whose only verb is `%s`, applied to one byte-string argument.
Literal format bytes are copied; `%s` emits the argument bytes verbatim. -/
def fprintfS (fmt : List Char) (arg : List Char) : List Char :=
  match fmt with
  | [] => []
  | '%' :: 's' :: rest => arg ++ fprintfS rest arg
  | c :: rest => c :: fprintfS rest arg

/-- What the `ServeHTTP` prologue (lines 47-69) produces before the receive
loop is entered. -/
structure SessionStart where
  /-- `http.Error` output, if any: status code and message. -/
  errorResponse : Option (Nat × String)
  /-- Headers set on the stream response. -/
  headers : List (String × String)
  /-- Requests the session sends to the core during the prologue. -/
  coreRequests : List Req
  /-- Whether control reaches the receive loop. -/
  streaming : Bool

/-- The prologue of `ServeHTTP`: the `rw.(http.Flusher)` type assertion; on
failure `http.Error(rw, "Streaming unsupported!", http.StatusInternalServerError)`
and `return`; on success the four headers and `broker.newClients <- msgChan`. -/
def serveHTTPStart (flusherOk : Bool) (msgChan : Sink) : SessionStart :=
  if flusherOk then
    { errorResponse := none
      headers := [("Content-Type", "text/event-stream"),
                  ("Cache-Control", "no-cache"),
                  ("Connection", "keep-alive"),
                  ("Access-Control-Allow-Origin", "*")]
      coreRequests := [Req.attach msgChan]
      streaming := true }
  else
    { errorResponse := some (500, "Streaming unsupported!")
      headers := []
      coreRequests := []
      streaming := false }

/-- The result `fmt.Fprintf` returns for one write: bytes written, or an error.
The source discards this value. -/
inductive WriteResult where
  | ok (n : Nat)
  | err (msg : String)
deriving DecidableEq

/-- One iteration of the session's receive loop: the event received from
`msgChan` and the result the transport write returns for it. -/
structure LoopIteration where
  payload : Event
  write : WriteResult

/-- The receive loop of `ServeHTTP` (lines 79-83), run over a finite schedule
of iterations: `for { fmt.Fprintf(rw, "data: %s\n\n", <-msgChan); flusher.Flush() }`.
Returns the frames written and whether the loop ever exited.  The body
discards the `Fprintf` result and contains no `break` or `return`, so control
never leaves the loop: after the schedule it is again blocked on `<-msgChan`. -/
def receiveLoop : List LoopIteration → List (List Char) × Bool
  | [] => ([], false)
  | it :: rest =>
    let out := receiveLoop rest
    (fprintfS ("data: %s\n\n".toList) it.payload :: out.1, out.2)

/-- How many `closingClients` (Detach) requests the session issues, given
whether the request context was cancelled and the loop schedule: the goroutine
at lines 73-76 sends one when `req.Context().Done()` fires, and the `defer` at
lines 67-69 sends one when `ServeHTTP` returns, i.e. when the receive loop
exits. -/
def sessionDetachCount (ctxDone : Bool) (its : List LoopIteration) : Nat :=
  (if ctxDone then 1 else 0) + (if (receiveLoop its).2 then 1 else 0)

/-- State of the `listen` loop under the synchronous unbuffered hand-off
semantics of `clientMsgChan <- event`. -/
structure BlockState where
  /-- The registry `broker.clients`. -/
  clients : List Sink
  /-- Remaining receives each sink's session can perform: `none` means the
  session is always ready; `some n` means it can take `n` more events before
  its transport write stalls forever. -/
  cap : Sink → Option Nat
  /-- Completed deliveries, in order. -/
  delivered : List (Event × Sink)
  /-- Whether the loop is blocked for good inside a channel send. -/
  stuck : Bool

/-- Point update of a capacity map. -/
def setCap (cap : Sink → Option Nat) (s : Sink) (n : Option Nat) : Sink → Option Nat :=
  fun x => if x = s then n else cap x

/-- The fan-out `for clientMsgChan := range broker.clients { clientMsgChan <- event }`
under unbuffered-channel semantics: hand `e` to each sink in turn; a send to a
sink with no receive capacity left never completes, so the remaining sinks get
nothing and the loop is stuck.  Returns the new capacities, the completed
deliveries, and the stuck flag. -/
def sendAll (cap : Sink → Option Nat) (e : Event) :
    List Sink → (Sink → Option Nat) × List (Event × Sink) × Bool
  | [] => (cap, [], false)
  | s :: rest =>
    match cap s with
    | none =>
      let r := sendAll cap e rest
      (r.1, (e, s) :: r.2.1, r.2.2)
    | some 0 => (cap, [], true)
    | some (n + 1) =>
      let r := sendAll (setCap cap s (some n)) e rest
      (r.1, (e, s) :: r.2.1, r.2.2)

/-- The `listen` loop under synchronous hand-off: once a send blocks, the loop
is stuck inside that publish case forever and consumes no further requests. -/
def listenBlocking (st : BlockState) : List Req → BlockState
  | [] => st
  | r :: rs =>
    if st.stuck then st
    else
      match r with
      | .attach s => listenBlocking ⟨st.clients.insert s, st.cap, st.delivered, st.stuck⟩ rs
      | .detach s => listenBlocking ⟨st.clients.erase s, st.cap, st.delivered, st.stuck⟩ rs
      | .publish e =>
        let out := sendAll st.cap e st.clients
        listenBlocking ⟨st.clients, out.1, st.delivered ++ out.2.1, out.2.2⟩ rs

/-- The concrete two-client scenario used against the non-blocking claim:
sink 1's transport stalls after one write, sink 2 is always responsive. -/
def stallCap : Sink → Option Nat :=
  fun s => if s = 1 then some 1 else none

/-- Attach both sinks, then publish three events. -/
def stallTrace : List Req :=
  [Req.attach 1, Req.attach 2, Req.publish ['a'], Req.publish ['b'], Req.publish ['c']]

/-- The loop state at the end of the stall scenario. -/
def stallFinal : BlockState :=
  listenBlocking ⟨[], stallCap, [], false⟩ stallTrace

/-- A run of the `listen` loop under the blocking hand-off semantics, from the
broker's initial state: empty registry, initial per-sink capacities `cap0`, no
deliveries, not blocked. -/
def runBlock (cap0 : Sink → Option Nat) (t : List Req) : BlockState :=
  listenBlocking ⟨[], cap0, [], false⟩ t

/-- The fan-out performed for a publish processed right after prefix `t1`:
capacities after it, deliveries it completes, and whether it blocked. -/
def publishFanout (cap0 : Sink → Option Nat) (t1 : List Req) (e : Event) :
    (Sink → Option Nat) × List (Event × Sink) × Bool :=
  sendAll (runBlock cap0 t1).cap e (runBlock cap0 t1).clients

/-- The sequence of events actually delivered to sink `s` in a blocking-run
state, in hand-off completion order. -/
def sinkDelivered (s : Sink) (st : BlockState) : List Event :=
  (st.delivered.filter (fun p => decide (p.2 = s))).map Prod.fst

/-- A second stall scenario in which the stalled sink 1 comes first in the
registry's iteration order: attach 2, then 1, then publish two events. -/
def stallTrace2 : List Req :=
  [Req.attach 2, Req.attach 1, Req.publish ['a'], Req.publish ['b']]

/-- The loop state at the end of the second stall scenario. -/
def stallFinal2 : BlockState :=
  runBlock stallCap stallTrace2

/-! ## Basic lemmas about the core loop -/

theorem clientsAfter_nil (cs : List Sink) : clientsAfter cs [] = cs := rfl

theorem clientsAfter_cons (cs : List Sink) (r : Req) (t : List Req) :
    clientsAfter cs (r :: t) = clientsAfter (listenStep cs r) t := rfl

theorem clientsAfter_append (cs : List Sink) (t t' : List Req) :
    clientsAfter cs (t ++ t') = clientsAfter (clientsAfter cs t) t' :=
  List.foldl_append ..

theorem nodup_listenStep (cs : List Sink) (r : Req) (h : cs.Nodup) :
    (listenStep cs r).Nodup := by
  cases r with
  | attach s => exact h.insert
  | detach s => exact h.erase s
  | publish e => exact h

theorem nodup_clientsAfter (cs : List Sink) (t : List Req) (h : cs.Nodup) :
    (clientsAfter cs t).Nodup := by
  induction t generalizing cs with
  | nil => exact h
  | cons r t ih => exact ih (listenStep cs r) (nodup_listenStep cs r h)

theorem not_mem_clientsAfter (s : Sink) (v : List Req) (cs : List Sink)
    (hv : Req.attach s ∉ v) (hcs : s ∉ cs) : s ∉ clientsAfter cs v := by
  induction v generalizing cs with
  | nil => exact hcs
  | cons r v ih =>
    rw [clientsAfter_cons]
    refine ih (listenStep cs r) (fun h => hv (List.mem_cons_of_mem r h)) ?_
    cases r with
    | attach s' =>
      have hne : s' ≠ s := fun h => hv (by simp [h])
      simp only [listenStep, List.mem_insert_iff]
      rintro (rfl | h)
      · exact hne rfl
      · exact hcs h
    | detach s' => exact fun h => hcs (List.mem_of_mem_erase h)
    | publish e => exact hcs

theorem not_mem_clientsAfter_after_detach (u v : List Req) (s : Sink)
    (hv : Req.attach s ∉ v) : s ∉ clientsAfter [] (u ++ Req.detach s :: v) := by
  rw [clientsAfter_append, clientsAfter_cons]
  refine not_mem_clientsAfter s v _ hv ?_
  have hnd : (clientsAfter [] u).Nodup := nodup_clientsAfter [] u List.nodup_nil
  simp only [listenStep]
  intro h
  exact absurd (hnd.mem_erase_iff.mp h).1 (by simp)

/-! ## Membership characterization (Attach processed and no Detach since) -/

theorem attach_split_concat (s : Sink) (t : List Req) (r : Req) :
    (∃ u v, t ++ [r] = u ++ Req.attach s :: v ∧ Req.detach s ∉ v)
      ↔ r = Req.attach s
        ∨ ((∃ u v, t = u ++ Req.attach s :: v ∧ Req.detach s ∉ v) ∧ r ≠ Req.detach s) := by
  constructor
  · rintro ⟨u, v, hsplit, hv⟩
    rcases List.eq_nil_or_concat v with rfl | ⟨v', a, rfl⟩
    · left
      have h2 := List.append_inj' hsplit rfl
      exact (List.cons_eq_cons.mp h2.2).1
    · right
      rw [List.concat_eq_append] at hsplit hv
      have h1 : t ++ [r] = (u ++ Req.attach s :: v') ++ [a] := by
        simpa using hsplit
      have h2 := List.append_inj' h1 rfl
      have hr : r = a := (List.cons_eq_cons.mp h2.2).1
      have hv' : Req.detach s ∉ v' := fun hm => hv (List.mem_append.mpr (Or.inl hm))
      have ha : a ≠ Req.detach s := fun haeq => hv (by simp [haeq])
      exact ⟨⟨u, v', h2.1, hv'⟩, by rw [hr]; exact ha⟩
  · rintro (rfl | ⟨⟨u, v, rfl, hv⟩, hr⟩)
    · exact ⟨t, [], rfl, by simp⟩
    · refine ⟨u, v ++ [r], by simp, ?_⟩
      intro hm
      rcases List.mem_append.mp hm with hm1 | hm2
      · exact hv hm1
      · exact hr (List.mem_singleton.mp hm2).symm

theorem mem_clientsAfter_iff (t : List Req) (s : Sink) :
    s ∈ clientsAfter [] t ↔ ∃ u v, t = u ++ Req.attach s :: v ∧ Req.detach s ∉ v := by
  induction t using List.reverseRecOn with
  | nil =>
    simp only [clientsAfter_nil, List.not_mem_nil, false_iff]
    rintro ⟨u, v, h, -⟩
    exact absurd h.symm (by simp)
  | append_singleton t r ih =>
    rw [attach_split_concat, clientsAfter_append]
    have hnd : (clientsAfter [] t).Nodup := nodup_clientsAfter [] t List.nodup_nil
    cases r with
    | attach s' =>
      by_cases hss : s' = s
      · subst hss
        simp [clientsAfter_cons, clientsAfter_nil, listenStep, List.mem_insert_iff]
      · simp [clientsAfter_cons, clientsAfter_nil, listenStep, List.mem_insert_iff, ih, hss,
          Ne.symm hss]
    | detach s' =>
      by_cases hss : s' = s
      · subst hss
        simp only [clientsAfter_cons, listenStep, clientsAfter_nil]
        constructor
        · intro h
          exact absurd (hnd.mem_erase_iff.mp h).1 (by simp)
        · rintro (h | ⟨-, h⟩) <;> simp at h
      · rw [clientsAfter_cons]
        simp only [listenStep, clientsAfter_nil, hnd.mem_erase_iff, ih]
        constructor
        · rintro ⟨-, h⟩
          exact Or.inr ⟨h, by simp [hss]⟩
        · rintro (h | ⟨h, -⟩)
          · exact absurd h (by simp [hss])
          · exact ⟨Ne.symm hss, h⟩
    | publish e =>
      rw [clientsAfter_cons]
      simp only [listenStep, clientsAfter_nil, ih]
      constructor
      · intro h
        exact Or.inr ⟨h, by simp⟩
      · rintro (h | ⟨h, -⟩)
        · exact absurd h (by simp)
        · exact h

/-! ## Lemmas about the blocking hand-off semantics -/

theorem listenBlocking_of_stuck (st : BlockState) (t : List Req) (h : st.stuck = true) :
    listenBlocking st t = st := by
  cases t with
  | nil => rfl
  | cons r rs => simp [listenBlocking, h]

theorem listenBlocking_append (st : BlockState) (t t' : List Req) :
    listenBlocking st (t ++ t') = listenBlocking (listenBlocking st t) t' := by
  induction t generalizing st with
  | nil => rfl
  | cons r t ih =>
    by_cases h : st.stuck
    · rw [listenBlocking_of_stuck st (r :: t ++ t') h, listenBlocking_of_stuck st (r :: t) h,
        listenBlocking_of_stuck st t' h]
    · cases r <;> simp [listenBlocking, h, ih]

/-! ## The claims -/

/-- C4: registry invariant: after any processed trace, a sink is a member of
the registry if and only if an Attach for it has been processed and no
matching Detach has been processed since, and the registry never contains a
sink twice. -/
theorem registry_invariant (t : List Req) (s : Sink) :
    (s ∈ clientsAfter [] t ↔ ∃ u v, t = u ++ Req.attach s :: v ∧ Req.detach s ∉ v)
    ∧ (clientsAfter [] t).Nodup :=
  ⟨mem_clientsAfter_iff t s, nodup_clientsAfter [] t List.nodup_nil⟩

/-- C5: Detach is idempotent and total: detaching a sink that is not a member
(never attached, or already detached) leaves the registry unchanged, and
processing Detach twice equals processing it once. -/
theorem detach_idempotent (t : List Req) (s : Sink) :
    clientsAfter [] (t ++ [Req.detach s, Req.detach s]) = clientsAfter [] (t ++ [Req.detach s])
    ∧ (Req.attach s ∉ t → clientsAfter [] (t ++ [Req.detach s]) = clientsAfter [] t)
    ∧ (s ∉ clientsAfter [] t → clientsAfter [] (t ++ [Req.detach s]) = clientsAfter [] t) := by
  have hnd : (clientsAfter [] t).Nodup := nodup_clientsAfter [] t List.nodup_nil
  refine ⟨?_, ?_, ?_⟩
  · rw [clientsAfter_append, clientsAfter_append]
    show ((clientsAfter [] t).erase s).erase s = (clientsAfter [] t).erase s
    refine List.erase_of_not_mem (fun h => ?_)
    exact absurd (hnd.mem_erase_iff.mp h).1 (by simp)
  · intro h
    rw [clientsAfter_append]
    show (clientsAfter [] t).erase s = clientsAfter [] t
    exact List.erase_of_not_mem (not_mem_clientsAfter s t [] h (List.not_mem_nil s))
  · intro h
    rw [clientsAfter_append]
    show (clientsAfter [] t).erase s = clientsAfter [] t
    exact List.erase_of_not_mem h

/-- Witness for C5: detaching sink 5, never attached, after `attach 0` leaves
the registry unchanged, and a second detach of 5 changes nothing either. -/
theorem detach_idempotent_witness :
    Req.attach 5 ∉ [Req.attach 0]
    ∧ clientsAfter [] ([Req.attach 0] ++ [Req.detach 5]) = clientsAfter [] [Req.attach 0]
    ∧ clientsAfter [] ([Req.attach 0] ++ [Req.detach 5, Req.detach 5])
        = clientsAfter [] ([Req.attach 0] ++ [Req.detach 5]) :=
  ⟨by decide, (detach_idempotent [Req.attach 0] 5).2.1 (by decide),
    (detach_idempotent [Req.attach 0] 5).1⟩

/-- C6: the bytes written to the transport for a delivered payload are exactly
the literal prefix `data: `, the payload bytes, then two newline characters:
running the source's `fmt.Fprintf` call with its format string `data: %s\n\n`
on any payload yields that frame byte-for-byte. -/
theorem frame_format (payload : Event) :
    fprintfS ("data: %s\n\n".toList) payload
      = "data: ".toList ++ payload ++ ['\n', '\n'] := by
  simp [fprintfS, String.toList]

/-- C7: on a transport without flush support, `ServeHTTP` fails immediately
with the streaming-unsupported error (HTTP 500, message
`Streaming unsupported!`), sends no Attach request, sets no stream headers,
never reaches the receive loop, and leaves any registry state (membership and
size) unchanged. -/
theorem unsupported_transport_no_registration (msgChan : Sink) (t : List Req) :
    (serveHTTPStart false msgChan).errorResponse = some (500, "Streaming unsupported!")
    ∧ (serveHTTPStart false msgChan).coreRequests = []
    ∧ (serveHTTPStart false msgChan).headers = []
    ∧ (serveHTTPStart false msgChan).streaming = false
    ∧ clientsAfter [] (t ++ (serveHTTPStart false msgChan).coreRequests) = clientsAfter [] t
    ∧ (clientsAfter [] (t ++ (serveHTTPStart false msgChan).coreRequests)).length
        = (clientsAfter [] t).length := by
  simp [serveHTTPStart]

/-- C8 (the code at the failing input): the receive loop of `ServeHTTP` never
terminates — its body writes a frame, discards the write result, flushes and
loops, with no exit on any schedule, including schedules containing failed
writes — and with the request context not cancelled the session issues zero
Detach requests, since the only Detach sites are the context-done goroutine
and the `defer` that would run if the loop ever exited. -/
theorem receive_loop_never_terminates (its : List LoopIteration) :
    (receiveLoop its).2 = false ∧ sessionDetachCount false its = 0 := by
  have h : ∀ l : List LoopIteration, (receiveLoop l).2 = false := by
    intro l
    induction l with
    | nil => rfl
    | cons it rest ih => simpa [receiveLoop] using ih
  exact ⟨h its, by simp [sessionDetachCount, h its]⟩

/-- C9: detached is terminal: once a Detach for sink `s` has been processed,
then as long as no (forbidden, since sinks are fresh and never reused) Attach
for `s` is processed afterwards, `s` is not a member at any later point. -/
theorem detach_is_terminal (u v : List Req) (s : Sink) (h : Req.attach s ∉ v) :
    s ∉ clientsAfter [] (u ++ Req.detach s :: v) :=
  not_mem_clientsAfter_after_detach u v s h

/-- Witness for C9: after `attach 0, detach 0, publish a`, sink 0 is not a
member. -/
theorem detach_is_terminal_witness :
    Req.attach 0 ∉ [Req.publish ['a']]
    ∧ (0 : Sink) ∉ clientsAfter [] ([Req.attach 0] ++ Req.detach 0 :: [Req.publish ['a']]) :=
  ⟨by decide, detach_is_terminal [Req.attach 0] [Req.publish ['a']] 0 (by decide)⟩

/-- C10: Attach is idempotent on the registry: processing Attach for a sink
that is already a member leaves the registry unchanged — same member list,
same size, still duplicate-free. -/
theorem attach_idempotent (t : List Req) (s : Sink) (h : s ∈ clientsAfter [] t) :
    clientsAfter [] (t ++ [Req.attach s]) = clientsAfter [] t
    ∧ (clientsAfter [] (t ++ [Req.attach s])).length = (clientsAfter [] t).length
    ∧ (clientsAfter [] (t ++ [Req.attach s])).Nodup := by
  have heq : clientsAfter [] (t ++ [Req.attach s]) = clientsAfter [] t := by
    rw [clientsAfter_append]
    show (clientsAfter [] t).insert s = clientsAfter [] t
    exact List.insert_of_mem h
  exact ⟨heq, by rw [heq], heq ▸ nodup_clientsAfter [] t List.nodup_nil⟩

/-- Witness for C10: attaching sink 0 twice gives the same registry as
attaching it once. -/
theorem attach_idempotent_witness :
    (0 : Sink) ∈ clientsAfter [] [Req.attach 0]
    ∧ clientsAfter [] ([Req.attach 0] ++ [Req.attach 0]) = clientsAfter [] [Req.attach 0] :=
  ⟨by decide, (attach_idempotent [Req.attach 0] 0 (by decide)).1⟩

/-- C2 is false of the code: under the unbuffered hand-off semantics of
`clientMsgChan <- event`, the stall scenario — sink 1 attached with a
transport that stalls after one write, sink 2 attached, responsive and
distinct, then three events published — ends with the Core loop stuck in the
send to sink 1 and the third event `c` never delivered to sink 2, even though
sink 2 is still a registered member. -/
theorem one_stalled_client_blocks_all :
    (2 : Sink) ∈ stallFinal.clients ∧ (2 : Sink) ≠ 1 ∧ stallCap 2 = none
    ∧ stallFinal.stuck = true ∧ (['c'], (2 : Sink)) ∉ stallFinal.delivered := by
  decide

/-- C2 amended: handing an event to a sink is a blocking synchronous hand-off;
once the Core loop blocks in a send to an unresponsive sink, it consumes no
further requests, so no client — however responsive — receives any event
published afterwards. -/
theorem stuck_loop_delivers_nothing_more (st : BlockState) (t rest : List Req)
    (h : (listenBlocking st t).stuck = true) :
    listenBlocking st (t ++ rest) = listenBlocking st t := by
  rw [listenBlocking_append]
  exact listenBlocking_of_stuck (listenBlocking st t) rest h

/-- Witness for the amended C2: in the stall scenario the loop is stuck, and
publishing one more event changes nothing. -/
theorem stuck_loop_delivers_nothing_more_witness :
    (listenBlocking ⟨[], stallCap, [], false⟩ stallTrace).stuck = true
    ∧ listenBlocking ⟨[], stallCap, [], false⟩ (stallTrace ++ [Req.publish ['d']])
        = listenBlocking ⟨[], stallCap, [], false⟩ stallTrace :=
  ⟨by decide,
    stuck_loop_delivers_nothing_more ⟨[], stallCap, [], false⟩ stallTrace [Req.publish ['d']]
      (by decide)⟩

/-! ## Structure of one blocking fan-out -/

theorem sendAll_delivered_eq (e : Event) :
    ∀ (l : List Sink) (cap : Sink → Option Nat),
      ∃ l', (sendAll cap e l).2.1 = l'.map (fun x => (e, x))
        ∧ l'.Sublist l ∧ ((sendAll cap e l).2.2 = false → l' = l) := by
  intro l
  induction l with
  | nil => exact fun cap => ⟨[], rfl, List.Sublist.refl [], fun _ => rfl⟩
  | cons s rest ih =>
    intro cap
    cases hcs : cap s with
    | none =>
      obtain ⟨l', h1, h2, h3⟩ := ih cap
      refine ⟨s :: l', ?_, h2.cons₂ s, ?_⟩
      · simp [sendAll, hcs, h1]
      · intro hns
        simp only [sendAll, hcs] at hns
        rw [h3 hns]
    | some n =>
      cases n with
      | zero =>
        refine ⟨[], ?_, List.nil_sublist _, ?_⟩
        · simp [sendAll, hcs]
        · intro hns
          simp [sendAll, hcs] at hns
      | succ m =>
        obtain ⟨l', h1, h2, h3⟩ := ih (setCap cap s (some m))
        refine ⟨s :: l', ?_, h2.cons₂ s, ?_⟩
        · simp [sendAll, hcs, h1]
        · intro hns
          simp only [sendAll, hcs] at hns
          rw [h3 hns]

theorem count_map_pair (e : Event) (l : List Sink) (s : Sink) :
    (l.map (fun x => (e, x))).count (e, s) = l.count s := by
  induction l with
  | nil => rfl
  | cons a l ih =>
    by_cases h : a = s
    · subst h
      simp [List.count_cons, ih]
    · simp [List.count_cons, ih, h]

theorem sendAll_count_le_one (cap : Sink → Option Nat) (e : Event) (l : List Sink) (s : Sink)
    (h : l.Nodup) : (sendAll cap e l).2.1.count (e, s) ≤ 1 := by
  obtain ⟨l', h1, h2, -⟩ := sendAll_delivered_eq e l cap
  rw [h1, count_map_pair]
  exact List.nodup_iff_count_le_one.mp (h.sublist h2) s

theorem sendAll_complete_count (cap : Sink → Option Nat) (e : Event) (l : List Sink) (s : Sink)
    (h : l.Nodup) (hc : (sendAll cap e l).2.2 = false) (hs : s ∈ l) :
    (sendAll cap e l).2.1.count (e, s) = 1 := by
  obtain ⟨l', h1, -, h3⟩ := sendAll_delivered_eq e l cap
  rw [h1, h3 hc, count_map_pair]
  exact List.count_eq_one_of_mem h hs

theorem sendAll_not_mem (cap : Sink → Option Nat) (e : Event) (l : List Sink) (s : Sink)
    (h : s ∉ l) : (e, s) ∉ (sendAll cap e l).2.1 := by
  obtain ⟨l', h1, h2, -⟩ := sendAll_delivered_eq e l cap
  rw [h1]
  intro hmem
  obtain ⟨x, hx, hxe⟩ := List.mem_map.mp hmem
  have hxs : x = s := congrArg Prod.snd hxe
  exact h (h2.subset (hxs ▸ hx))

theorem sinkFilter_fanout (e : Event) (s : Sink) (cl : List Sink) (cap : Sink → Option Nat)
    (hnd : cl.Nodup) (hmem : (e, s) ∈ (sendAll cap e cl).2.1) :
    ((sendAll cap e cl).2.1.filter (fun p => decide (p.2 = s))).map Prod.fst = [e] := by
  obtain ⟨l', h1, h2, -⟩ := sendAll_delivered_eq e cl cap
  rw [h1] at hmem ⊢
  have hs : s ∈ l' := by
    obtain ⟨x, hx, hxe⟩ := List.mem_map.mp hmem
    have hxs : x = s := congrArg Prod.snd hxe
    exact hxs ▸ hx
  have hcnt : l'.count s = 1 := List.count_eq_one_of_mem (hnd.sublist h2) hs
  rw [List.filter_map]
  have hfe : l'.filter ((fun p : Event × Sink => decide (p.2 = s)) ∘ (fun x => (e, x)))
      = [s] := by
    have hfe2 : l'.filter (fun x => decide (x = s)) = List.replicate (l'.count s) s :=
      List.filter_beq l' s
    rw [hcnt] at hfe2
    simpa [Function.comp] using hfe2
  rw [hfe]
  rfl

/-! ## Tracking the blocking run -/

theorem listenBlocking_attach_step (st : BlockState) (s : Sink) (t : List Req)
    (h : st.stuck = false) :
    listenBlocking st (Req.attach s :: t)
      = listenBlocking ⟨st.clients.insert s, st.cap, st.delivered, st.stuck⟩ t := by
  simp [listenBlocking, h]

theorem listenBlocking_detach_step (st : BlockState) (s : Sink) (t : List Req)
    (h : st.stuck = false) :
    listenBlocking st (Req.detach s :: t)
      = listenBlocking ⟨st.clients.erase s, st.cap, st.delivered, st.stuck⟩ t := by
  simp [listenBlocking, h]

theorem listenBlocking_publish_step (st : BlockState) (e : Event) (t : List Req)
    (h : st.stuck = false) :
    listenBlocking st (Req.publish e :: t)
      = listenBlocking ⟨st.clients, (sendAll st.cap e st.clients).1,
          st.delivered ++ (sendAll st.cap e st.clients).2.1,
          (sendAll st.cap e st.clients).2.2⟩ t := by
  simp [listenBlocking, h]

theorem listenBlocking_not_stuck_clients :
    ∀ (t : List Req) (st : BlockState), (listenBlocking st t).stuck = false →
      st.stuck = false ∧ (listenBlocking st t).clients = clientsAfter st.clients t := by
  intro t
  induction t with
  | nil => exact fun st h => ⟨h, rfl⟩
  | cons r t ih =>
    intro st h
    by_cases hst : st.stuck
    · rw [listenBlocking_of_stuck st (r :: t) hst] at h
      rw [h] at hst
      exact absurd hst (by simp)
    · have hst' : st.stuck = false := by simpa using hst
      refine ⟨hst', ?_⟩
      cases r with
      | attach s =>
        rw [listenBlocking_attach_step st s t hst'] at h ⊢
        exact (ih _ h).2
      | detach s =>
        rw [listenBlocking_detach_step st s t hst'] at h ⊢
        exact (ih _ h).2
      | publish e =>
        rw [listenBlocking_publish_step st e t hst'] at h ⊢
        exact (ih _ h).2

theorem listenBlocking_delivered_mono :
    ∀ (t : List Req) (st : BlockState),
      ∃ d, (listenBlocking st t).delivered = st.delivered ++ d := by
  intro t
  induction t with
  | nil => exact fun st => ⟨[], (List.append_nil _).symm⟩
  | cons r t ih =>
    intro st
    by_cases hst : st.stuck
    · exact ⟨[], by rw [listenBlocking_of_stuck st (r :: t) hst, List.append_nil]⟩
    · have hst' : st.stuck = false := by simpa using hst
      cases r with
      | attach s =>
        obtain ⟨d, hd⟩ := ih ⟨st.clients.insert s, st.cap, st.delivered, st.stuck⟩
        exact ⟨d, by rw [listenBlocking_attach_step st s t hst']; exact hd⟩
      | detach s =>
        obtain ⟨d, hd⟩ := ih ⟨st.clients.erase s, st.cap, st.delivered, st.stuck⟩
        exact ⟨d, by rw [listenBlocking_detach_step st s t hst']; exact hd⟩
      | publish e =>
        obtain ⟨d, hd⟩ := ih ⟨st.clients, (sendAll st.cap e st.clients).1,
          st.delivered ++ (sendAll st.cap e st.clients).2.1, (sendAll st.cap e st.clients).2.2⟩
        refine ⟨(sendAll st.cap e st.clients).2.1 ++ d, ?_⟩
        rw [listenBlocking_publish_step st e t hst', hd, List.append_assoc]

/-- C1 is false of the code: in the blocking hand-off semantics of
`clientMsgChan <- event`, with stalled sink 1 first in the fan-out iteration
order and responsive sink 2 attached, the publish of `b` is processed (the
prefix run is not stuck) while sink 2 is a registered member and with a
transport that is always ready, yet `b` is delivered to sink 2 zero times:
the fan-out blocked on sink 1 before reaching sink 2. -/
theorem member_delivered_zero_copies :
    (runBlock stallCap [Req.attach 2, Req.attach 1, Req.publish ['a']]).stuck = false
    ∧ (2 : Sink) ∈ (runBlock stallCap [Req.attach 2, Req.attach 1, Req.publish ['a']]).clients
    ∧ stallCap 2 = none
    ∧ stallFinal2.delivered.count (['b'], 2) = 0
    ∧ stallFinal2.stuck = true := by
  decide

/-- C1 amended: each event whose Publish the Core loop processes is delivered
to a sink at most once — never twice — and exactly once to every member when
that publish's fan-out completes without blocking; an event published after
the sink's Detach (with no re-Attach) is never delivered to it.  A hand-off
blocked on an unresponsive sink can leave a member at zero copies, the only
deviation from exactly-once.  The first conjunct ties `publishFanout` to the
actual run: the deliveries this publish appends to the log. -/
theorem publish_delivers_at_most_once (cap0 : Sink → Option Nat) (t1 t2 : List Req)
    (e : Event) (s : Sink) (h : (runBlock cap0 t1).stuck = false) :
    runBlock cap0 (t1 ++ Req.publish e :: t2)
        = listenBlocking ⟨(runBlock cap0 t1).clients, (publishFanout cap0 t1 e).1,
            (runBlock cap0 t1).delivered ++ (publishFanout cap0 t1 e).2.1,
            (publishFanout cap0 t1 e).2.2⟩ t2
    ∧ (publishFanout cap0 t1 e).2.1.count (e, s) ≤ 1
    ∧ ((publishFanout cap0 t1 e).2.2 = false → s ∈ (runBlock cap0 t1).clients →
        (publishFanout cap0 t1 e).2.1.count (e, s) = 1)
    ∧ (∀ u v, t1 = u ++ Req.detach s :: v → Req.attach s ∉ v →
        (e, s) ∉ (publishFanout cap0 t1 e).2.1) := by
  have hcl : (runBlock cap0 t1).clients = clientsAfter [] t1 :=
    (listenBlocking_not_stuck_clients t1 ⟨[], cap0, [], false⟩ h).2
  have hnd : (runBlock cap0 t1).clients.Nodup := by
    rw [hcl]
    exact nodup_clientsAfter [] t1 List.nodup_nil
  refine ⟨?_, ?_, ?_, ?_⟩
  · rw [runBlock, listenBlocking_append]
    exact listenBlocking_publish_step (listenBlocking ⟨[], cap0, [], false⟩ t1) e t2 h
  · exact sendAll_count_le_one _ e _ s hnd
  · intro hc hs
    exact sendAll_complete_count _ e _ s hnd hc hs
  · intro u v ht hv
    refine sendAll_not_mem _ e _ s ?_
    rw [hcl, ht]
    exact not_mem_clientsAfter_after_detach u v s hv

/-- Witness for the amended C1: with every transport responsive, the publish
of `a` after `attach 0` completes its fan-out and delivers to member sink 0
exactly once. -/
theorem publish_delivers_at_most_once_witness :
    (runBlock (fun _ => none) [Req.attach 0]).stuck = false
    ∧ (publishFanout (fun _ => none) [Req.attach 0] ['a']).2.2 = false
    ∧ (0 : Sink) ∈ (runBlock (fun _ => none) [Req.attach 0]).clients
    ∧ (publishFanout (fun _ => none) [Req.attach 0] ['a']).2.1.count (['a'], 0) = 1 :=
  ⟨by decide, by decide, by decide,
    (publish_delivers_at_most_once (fun _ => none) [Req.attach 0] [] ['a'] 0
      (by decide)).2.2.1 (by decide) (by decide)⟩

theorem sinkDelivered_publish_prefix (st : BlockState) (A : Event) (s : Sink) (rest : List Req)
    (hst : st.stuck = false) (hnd : st.clients.Nodup)
    (hmem : (A, s) ∈ (sendAll st.cap A st.clients).2.1) :
    ∃ d, sinkDelivered s (listenBlocking st (Req.publish A :: rest))
        = sinkDelivered s st ++ A :: d := by
  rw [listenBlocking_publish_step st A rest hst]
  obtain ⟨d, hd⟩ := listenBlocking_delivered_mono rest
    ⟨st.clients, (sendAll st.cap A st.clients).1,
      st.delivered ++ (sendAll st.cap A st.clients).2.1, (sendAll st.cap A st.clients).2.2⟩
  refine ⟨(d.filter (fun p => decide (p.2 = s))).map Prod.fst, ?_⟩
  simp only [sinkDelivered]
  rw [hd]
  simp [List.filter_append, sinkFilter_fanout A s st.clients st.cap hnd hmem]

/-- C3 is false of the code: with stalled sink 1 first in iteration order,
events `a` then `b` are published while responsive sink 2 is a member, yet
sink 2 never observes `b` at all — its delivered sequence is just `[a]` — so
sink 2 does not observe `a` before `b`. -/
theorem member_never_observes_second_event :
    (runBlock stallCap [Req.attach 2, Req.attach 1]).stuck = false
    ∧ (2 : Sink) ∈ (runBlock stallCap [Req.attach 2, Req.attach 1]).clients
    ∧ (2 : Sink) ∈ stallFinal2.clients
    ∧ sinkDelivered 2 stallFinal2 = [['a']]
    ∧ ['b'] ∉ sinkDelivered 2 stallFinal2 := by
  decide

/-- C3 amended: if events `A` then `B` are published while sink `s` is a
member and the fan-out hand-off of each of them to `s` completes (neither
blocked), `s` observes `A` strictly before `B` — per-sink delivery order
follows publish-processing order for delivered events.  When a hand-off
blocks, `s` may never observe `B` at all, the only deviation. -/
theorem delivered_order_matches_publish_order (cap0 : Sink → Option Nat) (t1 t2 t3 : List Req)
    (A B : Event) (s : Sink)
    (hA1 : (runBlock cap0 t1).stuck = false)
    (hA2 : (A, s) ∈ (publishFanout cap0 t1 A).2.1)
    (hB1 : (runBlock cap0 (t1 ++ Req.publish A :: t2)).stuck = false)
    (hB2 : (B, s) ∈ (publishFanout cap0 (t1 ++ Req.publish A :: t2) B).2.1) :
    ∃ l1 l2 l3,
      sinkDelivered s (runBlock cap0 (t1 ++ Req.publish A :: (t2 ++ Req.publish B :: t3)))
        = l1 ++ A :: (l2 ++ B :: l3) := by
  simp only [runBlock, publishFanout] at hA1 hA2 hB1 hB2 ⊢
  have hndA : (listenBlocking ⟨[], cap0, [], false⟩ t1).clients.Nodup := by
    rw [(listenBlocking_not_stuck_clients t1 ⟨[], cap0, [], false⟩ hA1).2]
    exact nodup_clientsAfter [] t1 List.nodup_nil
  have hndB : (listenBlocking ⟨[], cap0, [], false⟩ (t1 ++ Req.publish A :: t2)).clients.Nodup := by
    rw [(listenBlocking_not_stuck_clients (t1 ++ Req.publish A :: t2)
      ⟨[], cap0, [], false⟩ hB1).2]
    exact nodup_clientsAfter [] (t1 ++ Req.publish A :: t2) List.nodup_nil
  obtain ⟨d3, hd3⟩ := sinkDelivered_publish_prefix
    (listenBlocking ⟨[], cap0, [], false⟩ (t1 ++ Req.publish A :: t2)) B s t3 hB1 hndB hB2
  obtain ⟨d2, hd2⟩ := sinkDelivered_publish_prefix
    (listenBlocking ⟨[], cap0, [], false⟩ t1) A s t2 hA1 hndA hA2
  refine ⟨sinkDelivered s (listenBlocking ⟨[], cap0, [], false⟩ t1), d2, d3, ?_⟩
  have hassoc : t1 ++ Req.publish A :: (t2 ++ Req.publish B :: t3)
      = (t1 ++ Req.publish A :: t2) ++ Req.publish B :: t3 := by simp
  rw [hassoc, listenBlocking_append, hd3, listenBlocking_append, hd2]
  simp

/-- Witness for the amended C3: with every transport responsive, after
`attach 0` the publishes of `a` and then `b` each complete their hand-off to
sink 0, and sink 0 observes `a` before `b`. -/
theorem delivered_order_matches_publish_order_witness :
    ((runBlock (fun _ => none) [Req.attach 0]).stuck = false
      ∧ (['a'], (0 : Sink)) ∈ (publishFanout (fun _ => none) [Req.attach 0] ['a']).2.1
      ∧ (runBlock (fun _ => none) ([Req.attach 0] ++ Req.publish ['a'] :: [])).stuck = false
      ∧ (['b'], (0 : Sink))
          ∈ (publishFanout (fun _ => none) ([Req.attach 0] ++ Req.publish ['a'] :: []) ['b']).2.1)
    ∧ ∃ l1 l2 l3, sinkDelivered 0 (runBlock (fun _ => none)
        ([Req.attach 0] ++ Req.publish ['a'] :: ([] ++ Req.publish ['b'] :: [])))
        = l1 ++ ['a'] :: (l2 ++ ['b'] :: l3) :=
  ⟨⟨by decide, by decide, by decide, by decide⟩,
    delivered_order_matches_publish_order (fun _ => none) [Req.attach 0] [] [] ['a'] ['b'] 0
      (by decide) (by decide) (by decide) (by decide)⟩
